import Mathlib

/-!
Verification of the CreatorPulse cross-platform product matching subsystem.

The matching engine is embedded from the Python sketches in
src/specs/tiktok-shop-product-mapping.md (functions normalize,
match_identifiers, calculate_match_score), the persisted schema from
src/supabase/migrations/001_initial_schema.sql (matches table: CHECK
constraints and the UNIQUE(product_id, marketplace, external_id) key), and
the mobile store/query layer from the Zustand store and Supabase helper
module (getSortedContent, getContentWithRevenue).

Conventions of the embedding:
- Strings are lists of characters (List Char); Python str.lower is modelled
  by Char.toLower on the ASCII range, and the regex word class by an
  ASCII alphanumeric-or-underscore test.
- Monetary amounts and similarity scores are rationals.
- Library calls with no source in the repository (fuzz.ratio, the TF-IDF
  cosine) are parameters of calculate_match_score.
- Parts of the design that the repository specifies but does not implement
  (price_in_range, the aggregator dedup, the lifecycle manager) are
  modelled from the specification; each such definition is marked
  "Modelled from the spec:" in its doc comment.
-/

namespace CreatorPulse

/-! ## Character-level normalization (src/specs/tiktok-shop-product-mapping.md, normalize) -/

/-- ASCII word character: the regex class \w restricted to ASCII
(alphanumerics and underscore), applied after lowering as in the source. -/
def isWordChar (c : Char) : Bool := c.isAlphanum || c == '_'

/-- One character of the normalize pipeline: text.lower() followed by
re.sub of every non-word character to a space.  Whitespace characters are
mapped to a plain space as well; this is tokenization-equivalent because
split() treats every whitespace run as one separator and the output is
re-joined with single spaces. -/
def step (c : Char) : Char :=
  let d := c.toLower
  if isWordChar d then d else ' '

/-- Whitespace split, as Python str.split() with no argument: maximal runs
of non-space characters, empty pieces dropped.  The accumulator holds the
current token reversed. -/
def splitWsAux : List Char → List Char → List (List Char)
  | [], acc => if acc.isEmpty then [] else [acc.reverse]
  | c :: cs, acc =>
      if c = ' ' then
        if acc.isEmpty then splitWsAux cs [] else acc.reverse :: splitWsAux cs []
      else splitWsAux cs (c :: acc)

/-- Tokens of a string, split on spaces. -/
def splitWs (s : List Char) : List (List Char) := splitWsAux s []

/-- Re-join tokens with single spaces, as Python ' '.join. -/
def joinWs : List (List Char) → List Char
  | [] => []
  | [w] => w
  | w :: ws => w ++ ' ' :: joinWs ws

/-- The fixed noise-word list of normalize. -/
def noiseWords : List (List Char) :=
  ["the".toList, "a".toList, "an".toList, "and".toList, "or".toList,
   "for".toList, "with".toList, "new".toList]

/-- The enumerated size alternatives of the size_patterns regex. -/
def sizeWords : List (List Char) :=
  ["small".toList, "medium".toList, "large".toList, "xl".toList,
   "xxl".toList, "s".toList, "m".toList, "l".toList]

/-- Whole-token match of the volume alternatives \d+oz and \d+ml: one or
more digits followed by exactly oz or ml. -/
def isVolumeTok (w : List Char) : Bool :=
  !(w.takeWhile Char.isDigit).isEmpty &&
    (w.dropWhile Char.isDigit == "oz".toList || w.dropWhile Char.isDigit == "ml".toList)

/-- Whole-token match of the size_patterns regex.  The \b anchors of the
source pattern make every match coincide with a whole space-delimited
token (all pattern characters are word characters), so the re.sub of
matches to the empty string followed by split/join is a token filter. -/
def isSizeTok (w : List Char) : Bool := sizeWords.contains w || isVolumeTok w

/-- Token pipeline of normalize: lower-case and strip punctuation
character-wise, split on whitespace, drop noise words, drop size/variant
tokens. -/
def tokensOf (s : List Char) : List (List Char) :=
  ((splitWs (s.map step)).filter (fun w => !(noiseWords.contains w))).filter
    (fun w => !(isSizeTok w))

/-- The normalize function of the source: empty input short-circuits to the
empty string, otherwise the token pipeline re-joined with single spaces. -/
def normalize (s : List Char) : List Char :=
  if s.isEmpty then [] else joinWs (tokensOf s)

/-- Totalization over absent input: Python's "if not text" guard maps None
to the empty string as well. -/
def normalizeOpt : Option (List Char) → List Char
  | none => []
  | some s => normalize s

/-! ## Identifier matching and scoring (src/specs/tiktok-shop-product-mapping.md) -/

/-- Amazon-side product record as calculate_match_score and
match_identifiers read it: PA-API exposes trade identifiers as the UPCs
and EANs lists of ExternalIds, plus the ASIN. -/
structure AmazonProduct where
  asin : List Char
  title : List Char
  brand : List Char
  category : List Char
  upcs : List (List Char)
  eans : List (List Char)
  price : ℚ
  deriving DecidableEq

/-- TikTok-side product record as the source reads it: scalar optional
gtin/upc/ean/sku identifiers. -/
structure TikTokProduct where
  title : List Char
  brand : List Char
  category : List Char
  gtin : Option (List Char)
  upc : Option (List Char)
  ean : Option (List Char)
  sku : Option (List Char)
  price : ℚ
  deriving DecidableEq

/-- match_identifiers of the source: true exactly when the set
upcs ∪ eans of the Amazon record intersects {gtin, upc, ean} of the
TikTok record.  No identifier type precedence, no score, and the asin,
sku, isbn and mpn fields are never consulted. -/
def match_identifiers (a : AmazonProduct) (b : TikTokProduct) : Bool :=
  (a.upcs ++ a.eans).any
    (fun code => b.gtin == some code || b.upc == some code || b.ean == some code)

/-- Modelled from the spec: price_in_range is called by
calculate_match_score with tolerance 0.2 but is not defined anywhere in
the repository; §4.3 of the design states both prices are within ±20% of
each other with the tolerance measured symmetrically around the lower
price. -/
def price_in_range (p q tol : ℚ) : Bool := |p - q| ≤ tol * min p q

/-- Price sub-score of calculate_match_score: 1.0 when price_in_range with
tolerance 0.2, else 0.5.  The source has no 0.0 branch and no
missing-price branch (price is a required field of its Product shape). -/
def price_score (p q : ℚ) : ℚ := if price_in_range p q (1/5) then 1 else 1/2

/-- Result of calculate_match_score, instrumented with whether the fuzzy
brand/title/price branch was taken. -/
structure ScoreResult where
  score : ℚ
  fuzzyInvoked : Bool
  deriving DecidableEq

/-- calculate_match_score of the source.  fuzzRatio stands for
fuzz.ratio (a 0–100 similarity from the fuzzywuzzy library) and titleSim
for the TF-IDF cosine similarity (0–1); both are external library calls
with no source in the repository, so they are parameters.  On an
identifier match the function returns 1.0 without touching the fuzzy
sub-scores; otherwise it returns the weighted sum
brand*0.3 + title*0.5 + price*0.2 with brand = fuzz.ratio of the
normalized brands divided by 100. -/
def calculate_match_score (fuzzRatio titleSim : List Char → List Char → ℚ)
    (a : AmazonProduct) (b : TikTokProduct) : ScoreResult :=
  if match_identifiers a b then ⟨1, false⟩
  else
    let brand_score := fuzzRatio (normalize a.brand) (normalize b.brand) / 100
    let title_score := titleSim a.title b.title
    ⟨brand_score * (3/10) + title_score * (1/2) + price_score a.price b.price * (1/5), true⟩

/-- Constant similarity function, used to instantiate the library
parameters at concrete inputs. -/
def constScore (q : ℚ) : List Char → List Char → ℚ := fun _ _ => q

/-- Identifier types of the data model (products table columns gtin, upc,
ean, asin, sku, isbn, mpn). -/
inductive IdType
  | gtin | upc | ean | asin | sku | isbn | mpn
  deriving DecidableEq

/-- Typed identifier code sets of a normalized product, one set per column
of the products table. -/
structure NormalizedIds where
  gtin : List (List Char)
  upc : List (List Char)
  ean : List (List Char)
  asin : List (List Char)
  sku : List (List Char)
  isbn : List (List Char)
  mpn : List (List Char)
  deriving DecidableEq

/-- Shared exact code between two typed code sets. -/
def sharesCode (xs ys : List (List Char)) : Bool := xs.any (fun c => ys.contains c)

/-- Modelled from the spec: the identifier_match contract of §4.2
(refinement target for comparison with the source's match_identifiers):
fixed precedence GTIN, UPC, EAN, ASIN at score 100, then SKU/ISBN/MPN at
score 90, else None. -/
def identifier_match (a b : NormalizedIds) : Option (IdType × ℚ) :=
  if sharesCode a.gtin b.gtin then some (.gtin, 100)
  else if sharesCode a.upc b.upc then some (.upc, 100)
  else if sharesCode a.ean b.ean then some (.ean, 100)
  else if sharesCode a.asin b.asin then some (.asin, 100)
  else if sharesCode a.sku b.sku then some (.sku, 90)
  else if sharesCode a.isbn b.isbn then some (.isbn, 90)
  else if sharesCode a.mpn b.mpn then some (.mpn, 90)
  else none

/-- The source's match_identifiers computation expressed on the typed
code-set record (the claim's domain): amazon_ids is built from the upc and
ean code sets only, tiktok_ids from the candidate's gtin/upc/ean codes
only, and the result is their untyped intersection test — the asin, sku,
isbn and mpn sets are never read.  The lemma
match_identifiers_ids_agrees shows this lift agrees with
match_identifiers through the views below. -/
def match_identifiers_ids (a b : NormalizedIds) : Bool :=
  (a.upc ++ a.ean).any (fun code => (b.gtin ++ b.upc ++ b.ean).contains code)

/-- Typed view of an Amazon-shape record: its UPC and EAN lists, and its
ASIN, placed in the corresponding code sets. -/
def amazonIdsView (a : AmazonProduct) : NormalizedIds :=
  { gtin := [], upc := a.upcs, ean := a.eans, asin := [a.asin],
    sku := [], isbn := [], mpn := [] }

/-- Typed view of a TikTok-shape record: its optional gtin/upc/ean/sku
codes placed in the corresponding code sets. -/
def tiktokIdsView (b : TikTokProduct) : NormalizedIds :=
  { gtin := b.gtin.toList, upc := b.upc.toList, ean := b.ean.toList,
    asin := [], sku := b.sku.toList, isbn := [], mpn := [] }

/-- Modelled from the spec: the category sub-score of §4.3, 1.0 on exact
case-insensitive category match, else 0.0. -/
def categorySimilarity (x y : List Char) : ℚ :=
  if x.map Char.toLower == y.map Char.toLower then 1 else 0

/-- Modelled from the spec (refinement target for C4): the combination and
category gate of §4.4 step 2 — confidence round(100*(0.3*brand +
0.5*title + 0.2*price)), discarded when category is 0 and neither brand
nor title exceeds 0.85. -/
def specGatedConfidence (brand title price cat : ℚ) : Option ℤ :=
  if cat = 0 ∧ brand ≤ 17/20 ∧ title ≤ 17/20 then none
  else some (round (100 * (3/10 * brand + 1/2 * title + 1/5 * price)))

/-! ## Persisted schema (src/supabase/migrations/001_initial_schema.sql, matches table) -/

/-- The CHECK constraint value list of matches.match_method as written in
the migration: seven values. -/
def matchMethodValues : List String :=
  ["exact_gtin", "exact_upc", "exact_asin", "brand_title", "fuzzy_title",
   "category_price", "manual"]

/-- Storability of a match_method value: the column is nullable, and a
non-null value must pass the CHECK constraint. -/
def matchMethodCheckOk : Option String → Bool
  | none => true
  | some s => matchMethodValues.contains s

/-- The CHECK constraint value list of matches.match_status. -/
def matchStatusValues : List String :=
  ["pending", "confirmed", "rejected", "expired", "unavailable"]

/-- One row of the matches table, restricted to the fields the claims
touch. -/
structure MatchRow where
  product_id : String
  marketplace : String
  external_id : String
  confidence_score : ℤ
  match_method : Option String
  match_status : String
  reason : Option String
  deriving DecidableEq

/-- Natural key of a match row: the UNIQUE(product_id, marketplace,
external_id) constraint of the migration. -/
def rowKey (r : MatchRow) : String × String × String :=
  (r.product_id, r.marketplace, r.external_id)

/-- Uniqueness invariant enforced by the UNIQUE constraint: no two rows
share the natural key. -/
def uniquePerKey (tbl : List MatchRow) : Prop :=
  tbl.Pairwise (fun x y => rowKey x ≠ rowKey y)

/-- Modelled from the spec: the upsert_match contract of §4.5/§5
(insert-or-update keyed on the natural key; a pending row is updated in
place, a confirmed or rejected row keeps its status).  The Lifecycle
Manager has no implementation in the repository; the migration contributes
the natural key and the column constraints. -/
def upsert_match (tbl : List MatchRow) (r : MatchRow) : List MatchRow :=
  if tbl.any (fun x => rowKey x == rowKey r) then
    tbl.map (fun x =>
      if rowKey x == rowKey r then
        if x.match_status == "pending" then
          { x with confidence_score := r.confidence_score,
                   match_method := r.match_method,
                   reason := r.reason }
        else x
      else x)
  else r :: tbl

/-- Scored candidate as ranked by the aggregator. -/
structure Cand where
  external_id : String
  confidence : ℤ
  deriving DecidableEq

/-- Descending insertion by confidence (stable). -/
def insertCandDesc (x : Cand) : List Cand → List Cand
  | [] => [x]
  | y :: ys => if y.confidence < x.confidence then x :: y :: ys else y :: insertCandDesc x ys

/-- Descending sort of candidates by confidence. -/
def sortCandDesc (cs : List Cand) : List Cand := cs.foldr insertCandDesc []

/-- Dedup keeping the first (hence top-scoring, after the descending sort)
candidate per external_id; seen accumulates emitted ids. -/
def dedupAux : List Cand → List String → List Cand
  | [], _ => []
  | c :: rest, seen =>
      if seen.contains c.external_id then dedupAux rest seen
      else c :: dedupAux rest (c.external_id :: seen)

/-- Modelled from the spec: the ranking/dedup step of §4.4 — sort
surviving candidates by confidence descending and deduplicate by
external_id keeping only the top-scoring entry.  The aggregator has no
implementation in the repository. -/
def rankCandidates (cs : List Cand) : List Cand := dedupAux (sortCandDesc cs) []

/-! ## Match lifecycle (match_status CHECK constraint plus §4.5 state machine) -/

/-- Match status enum, the five values of the match_status CHECK
constraint. -/
inductive MatchStatus
  | pending | confirmed | rejected | expired | unavailable
  deriving DecidableEq

/-- SQL string of a status value. -/
def statusToSql : MatchStatus → String
  | .pending => "pending"
  | .confirmed => "confirmed"
  | .rejected => "rejected"
  | .expired => "expired"
  | .unavailable => "unavailable"

/-- Lifecycle errors surfaced to the caller. -/
inductive TransitionError
  | invalidTransition
  deriving DecidableEq

/-- Modelled from the spec: the confirm transition of the §4.5 state
machine — pending confirms, confirming an already confirmed match is an
idempotent success, and every other state fails with InvalidTransition
(never a silent no-op).  The Lifecycle Manager has no implementation in
the repository; the migration contributes the status value set. -/
def confirmTransition : MatchStatus → Except TransitionError MatchStatus
  | .pending => .ok .confirmed
  | .confirmed => .ok .confirmed
  | _ => .error .invalidTransition

/-! ## Mobile store and queries (Zustand store and Supabase helper module) -/

/-- One revenue_events row as getContentWithRevenue selects it. -/
structure RevenueEvent where
  commission_amount : Option ℚ
  deriving DecidableEq

/-- One content_master row joined with its revenue events. -/
structure ContentRow where
  view_count : Nat
  revenue_events : Option (List RevenueEvent)
  deriving DecidableEq

/-- The computed fields getContentWithRevenue adds to each row. -/
structure EnrichedContent where
  view_count : Nat
  total_revenue : ℚ
  epc : ℚ
  attributed_orders : Nat
  deriving DecidableEq

/-- The reduce over commission_amount with || 0 guards. -/
def totalRevenueOf : Option (List RevenueEvent) → ℚ
  | none => 0
  | some l => l.foldl (fun s e => s + e.commission_amount.getD 0) 0

/-- Per-row mapping of getContentWithRevenue: total_revenue as the guarded
reduce, epc as total_revenue / view_count behind the view_count > 0
ternary, attributed_orders as the guarded length. -/
def getContentWithRevenueRow (c : ContentRow) : EnrichedContent :=
  let totalRevenue := totalRevenueOf c.revenue_events
  { view_count := c.view_count
    total_revenue := totalRevenue
    epc := if 0 < c.view_count then totalRevenue / (c.view_count : ℚ) else 0
    attributed_orders := match c.revenue_events with | none => 0 | some l => l.length }

/-- Sort keys of the content store. -/
inductive SortKey
  | epc | revenue | views | date
  deriving DecidableEq

/-- One ContentWithRevenue item as getSortedContent reads it. -/
structure CItem where
  epc : ℚ
  total_revenue : ℚ
  view_count : Nat
  posted_at : Option ℤ
  visual_format : Option (List Char)
  deriving DecidableEq

/-- The switch comparator passed to sort: numeric difference per sort key,
with new Date(posted_at || 0) modelled as the timestamp with default 0. -/
def jsCompare (k : SortKey) (a b : CItem) : ℚ :=
  match k with
  | .epc => b.epc - a.epc
  | .revenue => b.total_revenue - a.total_revenue
  | .views => (b.view_count : ℚ) - (a.view_count : ℚ)
  | .date => ((b.posted_at.getD 0 : ℤ) : ℚ) - ((a.posted_at.getD 0 : ℤ) : ℚ)

/-- Insertion step of the comparator sort. -/
def insertByCompare (k : SortKey) (x : CItem) : List CItem → List CItem
  | [] => [x]
  | y :: ys => if jsCompare k x y ≤ 0 then x :: y :: ys else y :: insertByCompare k x ys

/-- Comparator sort used to model Array.prototype.sort. -/
def sortByCompare (k : SortKey) (l : List CItem) : List CItem :=
  l.foldr (insertByCompare k) []

/-- JavaScript truthiness of the filterFormat field: null and the empty
string are falsy. -/
def jsTruthy : Option (List Char) → Bool
  | none => false
  | some s => !s.isEmpty

/-- The content store state read by getSortedContent, with array values
held in a heap of array cells so that aliasing and in-place mutation are
observable: contentRef is the store's content array cell. -/
structure ContentStore where
  heap : List (List CItem)
  contentRef : Nat
  sortKey : SortKey
  filterFormat : Option (List Char)
  deriving DecidableEq

/-- getSortedContent of the content store.  Following the source: read
content; when filterFormat is truthy, filter allocates a fresh array,
otherwise filtered aliases the content array; the spread [...filtered]
allocates a copy; sort mutates that copy in place; the copy's cell is
returned. -/
def getSortedContent (st : ContentStore) : ContentStore × Nat :=
  let arr := st.heap.getD st.contentRef []
  let fPair : List (List CItem) × Nat :=
    if jsTruthy st.filterFormat then
      (st.heap ++ [arr.filter (fun c => c.visual_format == st.filterFormat)], st.heap.length)
    else (st.heap, st.contentRef)
  let h1 := fPair.1
  let fRef := fPair.2
  let h2 := h1 ++ [h1.getD fRef []]
  let cRef := h1.length
  let h3 := h2.set cRef (sortByCompare st.sortKey (h2.getD cRef []))
  ({ st with heap := h3 }, cRef)

/-! ## Concrete sample records for witnesses and counterexamples -/

/-- Shared GTIN code of the C1 scenario. -/
def gtinCode : List Char := "012345678905".toList

/-- Amazon record holding the shared code among its UPCs, with a title and
brand unrelated to the TikTok side. -/
def amzShared : AmazonProduct :=
  { asin := "B08N5WRWNW".toList
    title := "Stanley Quencher 40oz Tumbler".toList
    brand := "Stanley".toList
    category := "Kitchen".toList
    upcs := [gtinCode]
    eans := []
    price := 45 }

/-- TikTok record sharing only the GTIN, with divergent title and brand. -/
def tikShared : TikTokProduct :=
  { title := "completely different product name".toList
    brand := "OtherBrand".toList
    category := "Beauty".toList
    gtin := some gtinCode
    upc := none
    ean := none
    sku := none
    price := 9 }

/-- Amazon record with no trade identifiers at all (PA-API shape carries
no SKU field). -/
def amzSkuOnly : AmazonProduct :=
  { asin := []
    title := "vendor widget".toList
    brand := "acme".toList
    category := "Electronics".toList
    upcs := []
    eans := []
    price := 50 }

/-- TikTok record whose only identifier is a SKU. -/
def tikSkuOnly : TikTokProduct :=
  { title := "vendor widget deluxe".toList
    brand := "acme intl".toList
    category := "Beauty".toList
    gtin := none
    upc := none
    ean := none
    sku := some "VENDOR-SKU-123".toList
    price := 50 }

/-- Typed identifier sets of the pair above: both sides carry the SKU
code VENDOR-SKU-123 and nothing else. -/
def idsSkuOnlyA : NormalizedIds :=
  { gtin := [], upc := [], ean := [], asin := [],
    sku := ["VENDOR-SKU-123".toList], isbn := [], mpn := [] }

/-- Typed identifier sets of the TikTok side of the SKU-only pair. -/
def idsSkuOnlyB : NormalizedIds :=
  { gtin := [], upc := [], ean := [], asin := [],
    sku := ["VENDOR-SKU-123".toList], isbn := [], mpn := [] }

/-- Sample match table with one pending row. -/
def sampleRow : MatchRow :=
  { product_id := "p1", marketplace := "tiktok_shop", external_id := "x1",
    confidence_score := 80, match_method := some "fuzzy_title",
    match_status := "pending", reason := none }

/-- Second sample row on the same product and marketplace but another
external id. -/
def sampleRow2 : MatchRow :=
  { product_id := "p1", marketplace := "tiktok_shop", external_id := "x2",
    confidence_score := 95, match_method := some "exact_gtin",
    match_status := "pending", reason := none }

/-- Sample candidate list with a duplicate external id. -/
def sampleCands : List Cand :=
  [⟨"x1", 40⟩, ⟨"x2", 90⟩, ⟨"x1", 70⟩]

/-- Sample content row with two revenue events and a positive view count. -/
def sampleContent : ContentRow :=
  { view_count := 200, revenue_events := some [⟨some (3/2)⟩, ⟨none⟩, ⟨some (5/2)⟩] }

/-- Sample content store: one array cell holding two items, sorted by epc,
no filter. -/
def sampleStore : ContentStore :=
  { heap := [[⟨1/2, 10, 5, some 0, some "reel".toList⟩,
              ⟨3/2, 30, 4, some 1, some "story".toList⟩]]
    contentRef := 0
    sortKey := .epc
    filterFormat := none }

/-! ## Character-level lemmas -/

/-- Unfolding of Char.toLower. -/
theorem toLower_eq (c : Char) :
    c.toLower = if 65 ≤ c.toNat ∧ c.toNat ≤ 90 then Char.ofNat (c.toNat + 32) else c := rfl

/-- Lowering is idempotent. -/
theorem toLower_idem (c : Char) : c.toLower.toLower = c.toLower := by
  by_cases h : 65 ≤ c.toNat ∧ c.toNat ≤ 90
  · rw [toLower_eq c, if_pos h]
    obtain ⟨h1, h2⟩ := h
    set n := c.toNat with hn
    interval_cases n <;> decide
  · have hc : c.toLower = c := by rw [toLower_eq c, if_neg h]
    rw [hc, hc]

/-- The character pipeline maps space to space. -/
theorem step_space : step ' ' = ' ' := by decide

/-- The character pipeline is idempotent. -/
theorem step_idem (c : Char) : step (step c) = step c := by
  by_cases h : isWordChar c.toLower = true
  · have h1 : step c = c.toLower := by unfold step; rw [if_pos h]
    rw [h1]
    unfold step
    rw [toLower_idem]
    rw [if_pos h]
  · have h1 : step c = ' ' := by unfold step; rw [if_neg h]
    rw [h1]
    exact step_space

/-! ## Tokenization lemmas -/

/-- Every token produced by the splitter is nonempty, and its characters
come from the input (at non-space positions) or from the accumulator. -/
theorem splitWsAux_mem (Q : Char → Prop) :
    ∀ (s acc : List Char), (∀ c ∈ acc, Q c) → (∀ c ∈ s, c ≠ ' ' → Q c) →
      ∀ w ∈ splitWsAux s acc, w ≠ [] ∧ ∀ c ∈ w, Q c := by
  intro s
  induction s with
  | nil =>
    intro acc hacc hs w hw
    by_cases ha : acc.isEmpty
    · simp only [splitWsAux, ha, if_true] at hw
      exact absurd hw (List.not_mem_nil w)
    · simp only [splitWsAux, ha, Bool.false_eq_true, if_false, List.mem_singleton] at hw
      subst hw
      refine ⟨?_, ?_⟩
      · simp only [ne_eq, List.reverse_eq_nil_iff]
        intro hnil
        rw [hnil] at ha
        exact ha rfl
      · intro c hc
        exact hacc c (List.mem_reverse.mp hc)
  | cons c cs ih =>
    intro acc hacc hs w hw
    by_cases hc : c = ' '
    · simp only [splitWsAux, hc, if_true] at hw
      by_cases ha : acc.isEmpty
      · rw [if_pos ha] at hw
        exact ih [] (by simp) (fun d hd hdn => hs d (List.mem_cons_of_mem c hd) hdn) w hw
      · rw [if_neg ha] at hw
        rcases List.mem_cons.mp hw with h1 | h1
        · subst h1
          refine ⟨?_, ?_⟩
          · simp only [ne_eq, List.reverse_eq_nil_iff]
            intro hnil
            rw [hnil] at ha
            exact ha rfl
          · intro d hd
            exact hacc d (List.mem_reverse.mp hd)
        · exact ih [] (by simp) (fun d hd hdn => hs d (List.mem_cons_of_mem c hd) hdn) w h1
    · simp only [splitWsAux, hc, if_false] at hw
      refine ih (c :: acc) ?_ (fun d hd hdn => hs d (List.mem_cons_of_mem c hd) hdn) w hw
      intro d hd
      rcases List.mem_cons.mp hd with h1 | h1
      · subst h1
        exact hs d (List.mem_cons_self d cs) hc
      · exact hacc d h1

/-- Consuming a space-free block pushes it onto the accumulator. -/
theorem splitWsAux_token :
    ∀ w : List Char, (∀ c ∈ w, c ≠ ' ') →
      ∀ (t acc : List Char), splitWsAux (w ++ t) acc = splitWsAux t (w.reverse ++ acc) := by
  intro w
  induction w with
  | nil => intro _ t acc; simp
  | cons c w' ih =>
    intro hw t acc
    have hc : c ≠ ' ' := hw c (List.mem_cons_self c w')
    have hw' : ∀ d ∈ w', d ≠ ' ' := fun d hd => hw d (List.mem_cons_of_mem c hd)
    rw [List.cons_append]
    show splitWsAux (c :: (w' ++ t)) acc = _
    simp only [splitWsAux, hc, if_false]
    rw [ih hw' t (c :: acc)]
    congr 1
    simp [List.append_assoc]

/-- Joining a nonempty head token gives a nonempty string. -/
theorem joinWs_ne_nil (w : List Char) (tail : List (List Char)) (hw : w ≠ []) :
    joinWs (w :: tail) ≠ [] := by
  cases tail with
  | nil => exact hw
  | cons w2 t2 =>
    show w ++ ' ' :: joinWs (w2 :: t2) ≠ []
    simp

/-- Splitting is a left inverse of joining on nonempty space-free tokens. -/
theorem splitWs_joinWs :
    ∀ ws : List (List Char), (∀ w ∈ ws, w ≠ [] ∧ ∀ c ∈ w, c ≠ ' ') →
      splitWs (joinWs ws) = ws := by
  intro ws
  induction ws with
  | nil => intro _; rfl
  | cons w tail ih =>
    intro h
    obtain ⟨hwne, hwsp⟩ := h w (List.mem_cons_self w tail)
    have htail := fun x hx => h x (List.mem_cons_of_mem w hx)
    have hrnemp : ¬((w.reverse ++ []).isEmpty = true) := by
      simp only [List.append_nil, List.isEmpty_iff, List.reverse_eq_nil_iff]
      exact hwne
    cases tail with
    | nil =>
      show splitWs w = [w]
      unfold splitWs
      have htok := splitWsAux_token w hwsp [] []
      rw [List.append_nil] at htok
      rw [htok]
      have h1 : splitWsAux ([] : List Char) (w.reverse ++ []) = [(w.reverse ++ []).reverse] := by
        simp only [splitWsAux]
        rw [if_neg hrnemp]
      rw [h1]
      simp
    | cons w2 t2 =>
      show splitWs (w ++ ' ' :: joinWs (w2 :: t2)) = w :: w2 :: t2
      unfold splitWs
      rw [splitWsAux_token w hwsp (' ' :: joinWs (w2 :: t2)) []]
      have h1 : splitWsAux (' ' :: joinWs (w2 :: t2)) (w.reverse ++ []) =
          (w.reverse ++ []).reverse :: splitWsAux (joinWs (w2 :: t2)) [] := by
        simp only [splitWsAux]
        rw [if_pos trivial, if_neg hrnemp]
      rw [h1, List.append_nil, List.reverse_reverse]
      exact congrArg (w :: ·) (ih htail)

/-- Characters of a joined token list are spaces or token characters. -/
theorem mem_joinWs :
    ∀ (ws : List (List Char)) (c : Char), c ∈ joinWs ws → c = ' ' ∨ ∃ w ∈ ws, c ∈ w := by
  intro ws
  induction ws with
  | nil => intro c hc; exact absurd hc (List.not_mem_nil c)
  | cons w tail ih =>
    intro c hc
    cases tail with
    | nil => exact Or.inr ⟨w, List.mem_cons_self w [], hc⟩
    | cons w2 t2 =>
      have hc2 : c ∈ w ++ ' ' :: joinWs (w2 :: t2) := hc
      rcases List.mem_append.mp hc2 with h1 | h1
      · exact Or.inr ⟨w, List.mem_cons_self w _, h1⟩
      · rcases List.mem_cons.mp h1 with h2 | h2
        · exact Or.inl h2
        · rcases ih c h2 with h3 | ⟨x, hx, hcx⟩
          · exact Or.inl h3
          · exact Or.inr ⟨x, List.mem_cons_of_mem w hx, hcx⟩

/-- Mapping a function that fixes every element is the identity. -/
theorem map_id_of_fixed :
    ∀ (l : List Char) (f : Char → Char), (∀ c ∈ l, f c = c) → l.map f = l := by
  intro l f
  induction l with
  | nil => intro _; rfl
  | cons c cs ih =>
    intro h
    rw [List.map_cons, h c (List.mem_cons_self c cs),
      ih (fun d hd => h d (List.mem_cons_of_mem c hd))]

/-- Every token of the normalize pipeline is nonempty, consists of
space-free characters fixed by the character pipeline, and passes the
noise and size filters. -/
theorem tokensOf_spec (s : List Char) :
    ∀ w ∈ tokensOf s,
      (w ≠ [] ∧ ∀ c ∈ w, step c = c ∧ c ≠ ' ') ∧
        noiseWords.contains w = false ∧ isSizeTok w = false := by
  intro w hw
  unfold tokensOf at hw
  rw [List.mem_filter] at hw
  obtain ⟨hw, hsize⟩ := hw
  rw [List.mem_filter] at hw
  obtain ⟨hw, hnoise⟩ := hw
  have main := splitWsAux_mem (fun c => step c = c ∧ c ≠ ' ') (s.map step) []
    (by simp) ?_ w hw
  · refine ⟨⟨main.1, main.2⟩, ?_, ?_⟩
    · simpa using hnoise
    · simpa using hsize
  · intro c hc hcne
    rcases List.mem_map.mp hc with ⟨c0, _, rfl⟩
    exact ⟨step_idem c0, hcne⟩

/-- Strings built by joining canonical (nonempty, space-free, pipeline-fixed,
filter-passing) tokens are fixed points of normalize. -/
theorem normalize_joinWs (ws : List (List Char))
    (h : ∀ w ∈ ws,
      (w ≠ [] ∧ ∀ c ∈ w, step c = c ∧ c ≠ ' ') ∧
        noiseWords.contains w = false ∧ isSizeTok w = false) :
    normalize (joinWs ws) = joinWs ws := by
  cases ws with
  | nil => rfl
  | cons w tail =>
    have hwprops := h w (List.mem_cons_self w tail)
    have hne : joinWs (w :: tail) ≠ [] := joinWs_ne_nil w tail hwprops.1.1
    unfold normalize
    rw [if_neg (by simpa [List.isEmpty_iff] using hne)]
    have hmap : (joinWs (w :: tail)).map step = joinWs (w :: tail) := by
      refine map_id_of_fixed _ _ ?_
      intro c hc
      rcases mem_joinWs (w :: tail) c hc with h1 | ⟨x, hx, hcx⟩
      · rw [h1]; exact step_space
      · exact ((h x hx).1.2 c hcx).1
    have hsplit : splitWs (joinWs (w :: tail)) = w :: tail := by
      refine splitWs_joinWs (w :: tail) ?_
      intro x hx
      exact ⟨(h x hx).1.1, fun c hc => ((h x hx).1.2 c hc).2⟩
    unfold tokensOf
    rw [hmap, hsplit]
    rw [List.filter_eq_self.mpr (by
      intro x hx
      have hx2 : x ∈ w :: tail := (List.mem_filter.mp hx).1
      simpa using (h x hx2).2.2)]
    rw [List.filter_eq_self.mpr (by
      intro x hx
      simpa using (h x hx).2.1)]

/-- Claim C8: text normalization is idempotent — normalize applied to the
output of normalize returns it unchanged — and total, mapping absent or
empty input to the empty string rather than failing. -/
theorem normalize_idempotent_total :
    (∀ x : List Char, normalize (normalize x) = normalize x) ∧
      normalizeOpt none = [] ∧ normalize [] = [] := by
  refine ⟨?_, rfl, rfl⟩
  intro x
  by_cases hx : x.isEmpty
  · have h0 : normalize x = [] := by unfold normalize; rw [if_pos hx]
    rw [h0]
    rfl
  · have h0 : normalize x = joinWs (tokensOf x) := by unfold normalize; rw [if_neg hx]
    rw [h0]
    exact normalize_joinWs (tokensOf x) (tokensOf_spec x)

/-! ## Identifier short-circuit and fuzzy scoring -/

/-- The price sub-score is at most 1. -/
theorem price_score_le_one (p q : ℚ) : price_score p q ≤ 1 := by
  unfold price_score
  split <;> norm_num

/-- The price sub-score is nonnegative. -/
theorem price_score_nonneg (p q : ℚ) : 0 ≤ price_score p q := by
  unfold price_score
  split <;> norm_num

/-- Claim C1: a pair sharing an identical non-empty trade identifier code
(in particular a shared GTIN) short-circuits: the identifier match
succeeds, the returned confidence is exactly the maximum score 1.0
(100 on the percent scale, and no pair can score above 1), and the fuzzy
brand/title/price scoring is never invoked there, however far titles and
brands diverge. -/
theorem identifier_short_circuit_max_score
    (fuzzRatio titleSim : List Char → List Char → ℚ)
    (a : AmazonProduct) (b : TikTokProduct) (code : List Char)
    (_hne : code ≠ [])
    (hmem : code ∈ a.upcs ∨ code ∈ a.eans)
    (hshare : b.gtin = some code ∨ b.upc = some code ∨ b.ean = some code)
    (hfr : ∀ x y, 0 ≤ fuzzRatio x y ∧ fuzzRatio x y ≤ 100)
    (hts : ∀ x y, 0 ≤ titleSim x y ∧ titleSim x y ≤ 1) :
    calculate_match_score fuzzRatio titleSim a b = ⟨1, false⟩ ∧
      ∀ a2 b2, (calculate_match_score fuzzRatio titleSim a2 b2).score ≤ 1 := by
  have hmatch : match_identifiers a b = true := by
    unfold match_identifiers
    rw [List.any_eq_true]
    refine ⟨code, List.mem_append.mpr hmem, ?_⟩
    rcases hshare with h | h | h <;> simp [h]
  constructor
  · unfold calculate_match_score
    rw [if_pos hmatch]
  · intro a2 b2
    unfold calculate_match_score
    by_cases h2 : match_identifiers a2 b2 = true
    · rw [if_pos h2]
    · rw [if_neg h2]
      have hb := hfr (normalize a2.brand) (normalize b2.brand)
      have ht := hts a2.title b2.title
      have hp := price_score_le_one a2.price b2.price
      have hp0 := price_score_nonneg a2.price b2.price
      dsimp only
      linarith [hb.1, hb.2, ht.1, ht.2]

/-- Witness for C1: the GTIN-sharing sample pair with divergent titles and
brands scores exactly 1.0 without fuzzy scoring. -/
theorem identifier_short_circuit_max_score_witness :
    gtinCode ≠ [] ∧
      calculate_match_score (constScore 0) (constScore 0) amzShared tikShared = ⟨1, false⟩ :=
  ⟨by decide,
    (identifier_short_circuit_max_score (constScore 0) (constScore 0) amzShared tikShared
      gtinCode (by decide) (Or.inl (by decide)) (Or.inl (by decide))
      (fun x y => ⟨by norm_num [constScore], by norm_num [constScore]⟩)
      (fun x y => ⟨by norm_num [constScore], by norm_num [constScore]⟩)).1⟩

/-- Containment in the concatenated option-code lists is the disjunction
of the three option equalities. -/
theorem optTriple_contains (g u e : Option (List Char)) (code : List Char) :
    (g.toList ++ u.toList ++ e.toList).contains code =
      (g == some code || u == some code || e == some code) := by
  rw [Bool.eq_iff_iff]
  constructor
  · intro h
    have hmem : code ∈ g.toList ++ u.toList ++ e.toList := List.elem_iff.mp h
    simp only [List.mem_append, Option.mem_toList, Option.mem_def] at hmem
    simp only [Bool.or_eq_true, beq_iff_eq]
    tauto
  · intro h
    refine List.elem_iff.mpr ?_
    simp only [List.mem_append, Option.mem_toList, Option.mem_def]
    simp only [Bool.or_eq_true, beq_iff_eq] at h
    tauto

/-- The lifted matcher agrees with the source's match_identifiers on every
pair of code-shape records, through the typed views: the lift is the same
computation on the claim's record type. -/
theorem match_identifiers_ids_agrees (a : AmazonProduct) (b : TikTokProduct) :
    match_identifiers_ids (amazonIdsView a) (tiktokIdsView b) = match_identifiers a b := by
  unfold match_identifiers_ids amazonIdsView tiktokIdsView match_identifiers
  dsimp only
  congr 1
  funext code
  exact optTriple_contains b.gtin b.upc b.ean code

/-- Helper for concrete price computations: two equal nonnegative prices
are always in range, so their sub-score is 1. -/
theorem price_score_self (p : ℚ) (hp : 0 ≤ p) : price_score p p = 1 := by
  have hpir : price_in_range p p (1/5) = true := by
    unfold price_in_range
    rw [decide_eq_true_eq, sub_self, abs_zero, min_self]
    positivity
  unfold price_score
  rw [hpir]
  rfl

/-- Counterexample to claim C2: a pair of normalized products whose only
shared identifier code is a SKU, given once and for all as typed code sets
(idsSkuOnlyA/B) and as the corresponding code-shape records
(amzSkuOnly/tikSkuOnly, relatable through the typed views).  The claim
predicts the identifier match succeeds with type SKU and score 90; the
source's computation on the very same typed sets reports no identifier
match, the code-shape pipeline falls through to fuzzy scoring, and the
resulting confidence is 0.2 on the 0–1 scale (with zero library scores),
not 0.9. -/
theorem identifier_precedence_cex :
    identifier_match idsSkuOnlyA idsSkuOnlyB = some (IdType.sku, 90) ∧
      match_identifiers_ids idsSkuOnlyA idsSkuOnlyB = false ∧
      match_identifiers amzSkuOnly tikSkuOnly = false ∧
      (calculate_match_score (constScore 0) (constScore 0) amzSkuOnly tikSkuOnly).fuzzyInvoked
        = true ∧
      (calculate_match_score (constScore 0) (constScore 0) amzSkuOnly tikSkuOnly).score
        = 1/5 ∧
      (calculate_match_score (constScore 0) (constScore 0) amzSkuOnly tikSkuOnly).score
        ≠ 9/10 := by
  have h : match_identifiers amzSkuOnly tikSkuOnly = false := by decide
  have hps : price_score amzSkuOnly.price tikSkuOnly.price = 1 :=
    price_score_self 50 (by norm_num)
  have hsc : calculate_match_score (constScore 0) (constScore 0) amzSkuOnly tikSkuOnly =
      ⟨1/5, true⟩ := by
    unfold calculate_match_score
    rw [if_neg (by simp [h])]
    dsimp only [constScore]
    rw [hps]
    norm_num
  refine ⟨rfl, by decide, h, by rw [hsc], by rw [hsc], by rw [hsc]; norm_num⟩

/-- Claim C2 amended: match_identifiers is a single untyped set-intersection
test — true exactly when some code sits both in the Amazon UPC/EAN lists
and among the TikTok gtin/upc/ean values; there is no precedence order and
no per-type score (no 90-point SKU tier), the sku and asin fields are
provably never consulted (changing them never changes the result), and a
non-match falls through to fuzzy scoring rather than erroring. -/
theorem match_identifiers_characterization
    (fuzzRatio titleSim : List Char → List Char → ℚ)
    (a : AmazonProduct) (b : TikTokProduct) :
    (match_identifiers a b = true ↔
      ∃ code, (code ∈ a.upcs ∨ code ∈ a.eans) ∧
        (b.gtin = some code ∨ b.upc = some code ∨ b.ean = some code)) ∧
      (∀ s : Option (List Char), match_identifiers a { b with sku := s } = match_identifiers a b) ∧
      (∀ x : List Char, match_identifiers { a with asin := x } b = match_identifiers a b) ∧
      (match_identifiers a b = false →
        (calculate_match_score fuzzRatio titleSim a b).fuzzyInvoked = true) := by
  refine ⟨?_, fun s => rfl, fun x => rfl, ?_⟩
  · unfold match_identifiers
    rw [List.any_eq_true]
    constructor
    · rintro ⟨code, hmem, hcond⟩
      refine ⟨code, List.mem_append.mp hmem, ?_⟩
      simp only [Bool.or_eq_true, beq_iff_eq] at hcond
      tauto
    · rintro ⟨code, hmem, hcond⟩
      refine ⟨code, List.mem_append.mpr hmem, ?_⟩
      simp only [Bool.or_eq_true, beq_iff_eq]
      tauto
  · intro h
    unfold calculate_match_score
    rw [if_neg (by simp [h])]

/-- Witness for the amended C2 at the SKU-only sample pair, exercising the
sku-insensitivity and the fall-through implication. -/
theorem match_identifiers_characterization_witness :
    match_identifiers amzSkuOnly tikSkuOnly = false ∧
      match_identifiers amzSkuOnly { tikSkuOnly with sku := none }
        = match_identifiers amzSkuOnly tikSkuOnly ∧
      (calculate_match_score (constScore 0) (constScore 0) amzSkuOnly tikSkuOnly).fuzzyInvoked
        = true :=
  ⟨by decide,
    (match_identifiers_characterization (constScore 0) (constScore 0) amzSkuOnly tikSkuOnly).2.1
      none,
    (match_identifiers_characterization (constScore 0) (constScore 0) amzSkuOnly
      tikSkuOnly).2.2.2 (by decide)⟩

/-- Counterexample to claim C3: both prices present and outside the ±20%
tolerance score 0.5 in the source, not 0.0. -/
theorem price_score_out_of_tolerance_cex :
    price_in_range 10 100 (1/5) = false ∧ price_score 10 100 = 1/2 ∧
      price_score 10 100 ≠ 0 := by
  have h : price_in_range 10 100 (1/5) = false := by
    unfold price_in_range
    rw [decide_eq_false_iff_not]
    rw [show |(10:ℚ) - 100| = 90 from by rw [abs_of_nonpos (by norm_num)]; norm_num]
    rw [show min (10:ℚ) 100 = 10 from min_eq_left (by norm_num)]
    norm_num
  refine ⟨h, ?_, ?_⟩
  · unfold price_score
    rw [h]
    norm_num
  · unfold price_score
    rw [h]
    norm_num

/-- Claim C3 amended: the price sub-score is 1.0 exactly when the two
prices are within the ±20% tolerance measured around the lower price
(price_in_range is modelled from the spec, being absent from the source)
and 0.5 otherwise — including when both prices are present but outside the
tolerance, where the claim said 0.0; a missing-price case does not arise
because price is a required field of the source's Product shape.  The
sub-score is symmetric and never 0. -/
theorem price_score_amended (p q : ℚ) :
    (price_score p q = 1 ∨ price_score p q = 1/2) ∧
      (price_score p q = 1 ↔ |p - q| ≤ (1/5) * min p q) ∧
      price_score p q = price_score q p ∧
      price_score p q ≠ 0 := by
  have hsymm : price_in_range p q (1/5) = price_in_range q p (1/5) := by
    unfold price_in_range
    rw [abs_sub_comm, min_comm]
  have hval : price_score p q = 1 ∨ price_score p q = 1/2 := by
    unfold price_score
    split
    · exact Or.inl rfl
    · exact Or.inr rfl
  have hiff : price_score p q = 1 ↔ |p - q| ≤ (1/5) * min p q := by
    by_cases hr : |p - q| ≤ (1/5) * min p q
    · simp [price_score, price_in_range, hr]
    · simp only [price_score, price_in_range]
      rw [if_neg (by simpa using hr)]
      constructor
      · intro hcontra
        norm_num at hcontra
      · intro hcontra
        exact absurd hcontra hr
  have hne0 : price_score p q ≠ 0 := by
    rcases hval with h | h <;> rw [h] <;> norm_num
  have hsy : price_score p q = price_score q p := by
    unfold price_score
    rw [hsymm]
  exact ⟨hval, hiff, hsy, hne0⟩

/-- Witness for the amended C3 at concrete in-tolerance prices. -/
theorem price_score_amended_witness :
    price_score 10 11 = 1 ∧ price_score 10 11 = price_score 11 10 :=
  ⟨(price_score_amended 10 11).2.1.mpr (by
      rw [show |(10:ℚ) - 11| = 1 from by rw [abs_of_nonpos (by norm_num)]; norm_num]
      rw [show min (10:ℚ) 11 = 10 from min_eq_left (by norm_num)]
      norm_num),
    (price_score_amended 10 11).2.2.1⟩

/-- Claim C4 amended: a candidate reaching fuzzy scoring gets the
unrounded weighted sum brand*0.3 + title*0.5 + price*0.2 on the 0–1 scale
(not round(100*·)), lying in [0,1] whenever the library sub-scores are in
range; the source has no category sub-score and no category gate, so no
candidate is discarded. -/
theorem fuzzy_confidence_formula
    (fuzzRatio titleSim : List Char → List Char → ℚ)
    (a : AmazonProduct) (b : TikTokProduct)
    (hno : match_identifiers a b = false)
    (hfr : ∀ x y, 0 ≤ fuzzRatio x y ∧ fuzzRatio x y ≤ 100)
    (hts : ∀ x y, 0 ≤ titleSim x y ∧ titleSim x y ≤ 1) :
    calculate_match_score fuzzRatio titleSim a b =
      ⟨fuzzRatio (normalize a.brand) (normalize b.brand) / 100 * (3/10) +
        titleSim a.title b.title * (1/2) + price_score a.price b.price * (1/5), true⟩ ∧
      0 ≤ (calculate_match_score fuzzRatio titleSim a b).score ∧
      (calculate_match_score fuzzRatio titleSim a b).score ≤ 1 := by
  have heq : calculate_match_score fuzzRatio titleSim a b =
      ⟨fuzzRatio (normalize a.brand) (normalize b.brand) / 100 * (3/10) +
        titleSim a.title b.title * (1/2) + price_score a.price b.price * (1/5), true⟩ := by
    unfold calculate_match_score
    rw [if_neg (by simp [hno])]
  have hb := hfr (normalize a.brand) (normalize b.brand)
  have ht := hts a.title b.title
  have hp := price_score_le_one a.price b.price
  have hp0 := price_score_nonneg a.price b.price
  refine ⟨heq, ?_, ?_⟩ <;> rw [heq] <;> dsimp only
  · have h100 : 0 ≤ fuzzRatio (normalize a.brand) (normalize b.brand) / 100 := by
      linarith [hb.1]
    linarith [h100, ht.1]
  · linarith [hb.1, hb.2, ht.1, ht.2]

/-- Witness for the amended C4 at the SKU-only sample pair with constant
library scorers. -/
theorem fuzzy_confidence_formula_witness :
    match_identifiers amzSkuOnly tikSkuOnly = false ∧
      0 ≤ (calculate_match_score (constScore 40) (constScore (3/10)) amzSkuOnly tikSkuOnly).score :=
  ⟨by decide,
    (fuzzy_confidence_formula (constScore 40) (constScore (3/10)) amzSkuOnly tikSkuOnly
      (by decide)
      (fun x y => ⟨by norm_num [constScore], by norm_num [constScore]⟩)
      (fun x y => ⟨by norm_num [constScore], by norm_num [constScore]⟩)).2.1⟩

/-- Counterexample to claim C4: a cross-category pair with brand score 0.4
and title score 0.3 — the specified category gate discards it, but the
source computes the fuzzy score 0.47 (and returns it unrounded on the 0–1
scale, not as round(100*·) = 47). -/
theorem category_gate_missing_cex :
    match_identifiers amzSkuOnly tikSkuOnly = false ∧
      categorySimilarity amzSkuOnly.category tikSkuOnly.category = 0 ∧
      specGatedConfidence (2/5) (3/10) 1 0 = none ∧
      calculate_match_score (constScore 40) (constScore (3/10)) amzSkuOnly tikSkuOnly =
        ⟨47/100, true⟩ := by
  have h : match_identifiers amzSkuOnly tikSkuOnly = false := by decide
  have hpir : price_in_range amzSkuOnly.price tikSkuOnly.price (1/5) = true := by
    show price_in_range 50 50 (1/5) = true
    unfold price_in_range
    rw [decide_eq_true_eq]
    rw [show |(50:ℚ) - 50| = 0 from by norm_num]
    rw [show min (50:ℚ) 50 = 50 from min_self 50]
    norm_num
  have hps : price_score amzSkuOnly.price tikSkuOnly.price = 1 := by
    unfold price_score
    rw [hpir]
    rfl
  refine ⟨h, rfl, ?_, ?_⟩
  · unfold specGatedConfidence
    rw [if_pos ⟨rfl, by norm_num, by norm_num⟩]
  · unfold calculate_match_score
    rw [if_neg (by simp [h])]
    dsimp only [constScore]
    rw [hps]
    norm_num

/-! ## Persistence invariants and lifecycle -/

/-- Updating a row in place never changes its natural key. -/
theorem rowKey_update_eq (x r : MatchRow) :
    rowKey (if rowKey x == rowKey r then
      (if x.match_status == "pending" then
        { x with confidence_score := r.confidence_score,
                 match_method := r.match_method, reason := r.reason }
      else x) else x) = rowKey x := by
  split
  · split
    · rfl
    · rfl
  · rfl

/-- The upsert preserves the one-row-per-natural-key invariant. -/
theorem upsert_preserves_unique (tbl : List MatchRow) (r : MatchRow)
    (h : uniquePerKey tbl) : uniquePerKey (upsert_match tbl r) := by
  unfold upsert_match
  by_cases hany : tbl.any (fun x => rowKey x == rowKey r) = true
  · rw [if_pos hany]
    unfold uniquePerKey at h ⊢
    rw [List.pairwise_map]
    refine h.imp ?_
    intro x y hxy
    rw [rowKey_update_eq x r, rowKey_update_eq y r]
    exact hxy
  · rw [if_neg hany]
    refine List.Pairwise.cons ?_ h
    intro x hx heq
    rw [List.any_eq_true] at hany
    exact hany ⟨x, hx, beq_iff_eq.mpr heq.symm⟩

/-- Candidates surviving the dedup were not previously seen. -/
theorem dedupAux_not_seen :
    ∀ (cs : List Cand) (seen : List String) (c : Cand),
      c ∈ dedupAux cs seen → seen.contains c.external_id = false := by
  intro cs
  induction cs with
  | nil => intro seen c hc; exact absurd hc (List.not_mem_nil c)
  | cons d rest ih =>
    intro seen c hc
    simp only [dedupAux] at hc
    by_cases hd : seen.contains d.external_id = true
    · rw [if_pos hd] at hc
      exact ih seen c hc
    · rw [if_neg hd] at hc
      rcases List.mem_cons.mp hc with h1 | h1
      · subst h1
        simpa using hd
      · have hrec := ih (d.external_id :: seen) c h1
        rw [List.contains_cons] at hrec
        exact (Bool.or_eq_false_iff.mp hrec).2

/-- The dedup output carries pairwise distinct external ids. -/
theorem dedupAux_pairwise :
    ∀ (cs : List Cand) (seen : List String),
      (dedupAux cs seen).Pairwise (fun a b => a.external_id ≠ b.external_id) := by
  intro cs
  induction cs with
  | nil => intro seen; exact List.Pairwise.nil
  | cons d rest ih =>
    intro seen
    simp only [dedupAux]
    by_cases hd : seen.contains d.external_id = true
    · rw [if_pos hd]
      exact ih seen
    · rw [if_neg hd]
      refine List.Pairwise.cons ?_ (ih (d.external_id :: seen))
      intro c hc heq
      have := dedupAux_not_seen rest (d.external_id :: seen) c hc
      rw [List.contains_cons] at this
      have h1 := (Bool.or_eq_false_iff.mp this).1
      rw [beq_eq_false_iff_ne] at h1
      exact h1 heq.symm

/-- Claim C5: the natural-key uniqueness invariant — at most one persisted
match row per (product, marketplace, external id) triple — is preserved by
the insert-or-update operation, and aggregating a candidate list never
yields two matches with the same external id (the descending sort makes the
kept entry the top-scoring one). -/
theorem match_uniqueness_and_dedup (tbl : List MatchRow) (r : MatchRow)
    (h : uniquePerKey tbl) :
    uniquePerKey (upsert_match tbl r) ∧
      ∀ cs : List Cand,
        (rankCandidates cs).Pairwise (fun a b => a.external_id ≠ b.external_id) :=
  ⟨upsert_preserves_unique tbl r h, fun cs => dedupAux_pairwise (sortCandDesc cs) []⟩

/-- Witness for C5: inserting a second external id into a one-row table
keeps the invariant. -/
theorem match_uniqueness_and_dedup_witness :
    uniquePerKey [sampleRow] ∧ uniquePerKey (upsert_match [sampleRow] sampleRow2) :=
  have h : uniquePerKey [sampleRow] := List.pairwise_singleton _ _
  ⟨h, (match_uniqueness_and_dedup [sampleRow] sampleRow2 h).1⟩

/-- Claim C6: confirm on a rejected match fails with InvalidTransition
rather than silently doing nothing; confirm on pending succeeds; and
confirm is idempotent on confirmed — confirming twice yields the same
confirmed state with no error.  Every reachable status is a legal value of
the match_status CHECK constraint. -/
theorem confirm_transition_rules :
    confirmTransition .rejected = .error .invalidTransition ∧
      confirmTransition .pending = .ok .confirmed ∧
      (confirmTransition .pending).bind confirmTransition = .ok .confirmed ∧
      ∀ s : MatchStatus, matchStatusValues.contains (statusToSql s) = true := by
  refine ⟨rfl, rfl, rfl, ?_⟩
  intro s
  cases s <;> rfl

/-- Claim C7 (code bug): the match_method CHECK constraint accepts the
seven values exact_gtin, exact_upc, exact_asin, brand_title, fuzzy_title,
category_price and manual, but rejects exact_ean — the eighth value of the
documented enumeration is not storable, although the products table keeps
an ean column for matching and the design ranks EAN among the primary
exact identifiers. -/
theorem match_method_check_rejects_ean :
    matchMethodCheckOk (some "exact_ean") = false ∧
      matchMethodCheckOk (some "exact_gtin") = true ∧
      matchMethodCheckOk (some "exact_upc") = true ∧
      matchMethodCheckOk (some "exact_asin") = true ∧
      matchMethodCheckOk (some "brand_title") = true ∧
      matchMethodCheckOk (some "fuzzy_title") = true ∧
      matchMethodCheckOk (some "category_price") = true ∧
      matchMethodCheckOk (some "manual") = true := by
  refine ⟨?_, ?_, ?_, ?_, ?_, ?_, ?_, ?_⟩ <;> decide

/-! ## Mobile query and store -/

/-- Claim C9: the computed epc field equals total revenue divided by the
view count when the view count is positive, with the division well defined
(multiplying back recovers the revenue), and equals exactly 0 when the
view count is 0 — the guard prevents any division by zero. -/
theorem epc_division_guarded (c : ContentRow) :
    (0 < c.view_count →
      (getContentWithRevenueRow c).epc =
          (getContentWithRevenueRow c).total_revenue / (c.view_count : ℚ) ∧
        (getContentWithRevenueRow c).epc * (c.view_count : ℚ) =
          (getContentWithRevenueRow c).total_revenue) ∧
      (c.view_count = 0 → (getContentWithRevenueRow c).epc = 0) := by
  constructor
  · intro hv
    have he : (getContentWithRevenueRow c).epc =
        totalRevenueOf c.revenue_events / (c.view_count : ℚ) := by
      unfold getContentWithRevenueRow
      dsimp only
      rw [if_pos hv]
    have ht : (getContentWithRevenueRow c).total_revenue =
        totalRevenueOf c.revenue_events := rfl
    have hne : (c.view_count : ℚ) ≠ 0 := by positivity
    refine ⟨by rw [he, ht], ?_⟩
    rw [he, ht]
    field_simp
  · intro hv
    unfold getContentWithRevenueRow
    dsimp only
    rw [if_neg (by omega)]

/-- Witness for C9 at the sample content row. -/
theorem epc_division_guarded_witness :
    0 < sampleContent.view_count ∧
      (getContentWithRevenueRow sampleContent).epc * (sampleContent.view_count : ℚ) =
        (getContentWithRevenueRow sampleContent).total_revenue :=
  ⟨by decide, ((epc_division_guarded sampleContent).1 (by decide)).2⟩

/-- Claim C10: getSortedContent never mutates the state it reads — the
store's content array cell is unchanged, the returned array is a freshly
allocated cell (its reference lies beyond the original heap), and the
store's fields are untouched. -/
theorem getSortedContent_preserves_state (st : ContentStore)
    (h : st.contentRef < st.heap.length) :
    (getSortedContent st).1.heap[st.contentRef]? = st.heap[st.contentRef]? ∧
      st.heap.length ≤ (getSortedContent st).2 ∧
      (getSortedContent st).1.contentRef = st.contentRef ∧
      (getSortedContent st).1.sortKey = st.sortKey ∧
      (getSortedContent st).1.filterFormat = st.filterFormat := by
  unfold getSortedContent
  dsimp only
  by_cases hf : jsTruthy st.filterFormat = true
  · simp only [if_pos hf]
    refine ⟨?_, ?_, trivial, trivial, trivial⟩
    · have h1 : st.contentRef < (st.heap ++
          [(st.heap.getD st.contentRef []).filter
            (fun c => c.visual_format == st.filterFormat)]).length := by
        simp only [List.length_append, List.length_singleton]
        omega
      rw [List.getElem?_set_ne (by simp only [List.length_append]; omega)]
      rw [List.getElem?_append_left h1]
      rw [List.getElem?_append_left h]
    · simp only [List.length_append, List.length_singleton]
      omega
  · simp only [if_neg hf]
    refine ⟨?_, ?_, trivial, trivial, trivial⟩
    · rw [List.getElem?_set_ne (by omega)]
      rw [List.getElem?_append_left h]
    · omega

/-- Witness for C10 at the sample store. -/
theorem getSortedContent_preserves_state_witness :
    sampleStore.contentRef < sampleStore.heap.length ∧
      (getSortedContent sampleStore).1.heap[sampleStore.contentRef]? =
        sampleStore.heap[sampleStore.contentRef]? :=
  ⟨by decide, (getSortedContent_preserves_state sampleStore (by decide)).1⟩

end CreatorPulse
